import Mathlib

/-!
Shallow embedding of the rmesg incremental polling iterator
(`src/lib.rs` of akiernan/rmesg).

Durations and timestamps are modelled in nanoseconds as `Nat`:
a Rust `Duration` holds `u64` seconds plus sub-second nanoseconds, so a
duration is representable iff it is at most `DURATION_MAX` nanoseconds;
a `SystemTime` is the number of nanoseconds since the platform's minimum
representable time, so `checked_sub` underflows exactly when the subtracted
duration exceeds the timestamp.

The snapshot source `rmesg(clear)` is the external collaborator; each
invocation's outcome (`Except RMesgError String`) is supplied as an input to
the functions modelling `poll` and `next`, and the ambient `SystemTime::now()`
readings are likewise supplied as inputs.
-/

namespace RMesg

set_option maxHeartbeats 1000000

/-- Modelled from the spec: the module `src/error.rs` is not present under
`src/`.  The error enum is reconstructed from its uses in `src/lib.rs`
(variant `UnableToAddDurationToSystemTime`) and the spec's two error kinds:
*TimeArithmeticOverflow* (duration math at construction or during
elapsed-time computation) and *SnapshotReadFailure* (the external source
failed, platform cause passed through). -/
inductive RMesgError where
  | UnableToAddDurationToSystemTime
  | SnapshotReadFailure (cause : String)
deriving DecidableEq

deriving instance DecidableEq for Except

/-- Split a character list at every line feed.  The result always has one
more segment than there are line feeds (so a trailing line feed yields a
trailing empty segment). -/
def splitOnNl : List Char → List (List Char)
  | [] => [[]]
  | c :: rest =>
    if c = '\n' then [] :: splitOnNl rest
    else
      match splitOnNl rest with
      | [] => [[c]]
      | seg :: segs => (c :: seg) :: segs

/-- Rust `str::lines` strips one trailing carriage return from a segment that
was terminated by a line feed (the `\r\n` line ending). -/
def stripCRChars (l : List Char) : List Char :=
  if l.getLast? = some '\r' then l.dropLast else l

/-- Model of Rust `str::lines`: split at `\n`, treat a final line ending as
optional (a trailing empty segment is not a line), and strip a `\r` preceding
each `\n`. -/
def rustLines (s : String) : List String :=
  if s.data = [] then []
  else
    let segs := splitOnNl s.data
    if segs.getLast? = some [] then
      (segs.dropLast).map (fun seg => String.mk (stripCRChars seg))
    else
      ((segs.dropLast).map (fun seg => String.mk (stripCRChars seg))) ++
        [String.mk (segs.getLastD [])]

/-- Nanoseconds per millisecond. -/
def NANOS_PER_MILLI : Nat := 1000000

/-- Largest number of nanoseconds a Rust `Duration` can represent:
`u64::MAX` seconds plus `999999999` nanoseconds. -/
def DURATION_MAX : Nat := (2 ^ 64 - 1) * 1000000000 + 999999999

/-- Rust `Duration::checked_add`: `none` when the sum is not representable. -/
def durationCheckedAdd (a b : Nat) : Option Nat :=
  if a + b ≤ DURATION_MAX then some (a + b) else none

/-- Rust `SystemTime::checked_sub`: `none` when the result would precede the
platform's minimum representable time. -/
def systemTimeCheckedSub (t d : Nat) : Option Nat :=
  if d ≤ t then some (t - d) else none

/-- The fixed 200 ms margin added to `poll_interval` in `rmesg_lines_iter`. -/
def MARGIN_200_MILLIS : Nat := 200 * NANOS_PER_MILLI

/-- `SUGGESTED_POLL_INTERVAL`: ten seconds, in nanoseconds. -/
def SUGGESTED_POLL_INTERVAL : Nat := 10 * 1000000000

/-- State of `RMesgLinesIterator` (`src/lib.rs` lines 28-35). -/
structure RMesgLinesIterator where
  clear : Bool
  lines : List String
  poll_interval : Nat
  sleep_interval : Nat
  last_poll : Nat
  lastline : Option String
deriving DecidableEq

/-- The predicate of the `take_while` in `poll` (`src/lib.rs` line 93):
`maybe_lastline.is_none() || line != maybe_lastline.unwrap()`. -/
def lineKeep : Option String → String → Bool
  | none, _ => true
  | some lastline, line => line != lastline

/-- The reverse scan of `poll` (`src/lib.rs` lines 90-102): reverse the
snapshot's lines, take while not equal to the anchor, reverse back. -/
def deltaLines (maybe_lastline : Option String) (logLines : List String) : List String :=
  ((logLines.reverse).takeWhile (lineKeep maybe_lastline)).reverse

/-- One step of the accumulation loop of `poll` (`src/lib.rs` lines 104-110):
push the line, bump `linesadded`, remember the line as `new_lastline`. -/
def pollPush (acc : List String × Nat × String) (newline : String) :
    List String × Nat × String :=
  (acc.1 ++ [newline], acc.2.1 + 1, newline)

/-- `RMesgLinesIterator::poll` (`src/lib.rs` lines 83-118).  The outcome of
the `rmesg(self.clear)` invocation is passed in as `rmesgResult`; the function
returns the `Ok(usize)` count together with the updated iterator state. -/
def poll (it : RMesgLinesIterator) (rmesgResult : Except RMesgError String) :
    Except RMesgError (Nat × RMesgLinesIterator) :=
  match rmesgResult with
  | .error e => .error e
  | .ok rawlogs =>
    let newlines := deltaLines it.lastline (rustLines rawlogs)
    let acc := newlines.foldl pollPush (it.lines, 0, "")
    if acc.2.1 > 0 then
      .ok (acc.2.1, { it with lines := acc.1, lastline := some acc.2.2 })
    else
      .ok (0, { it with lines := acc.1 })

/-- `rmesg_lines_iter` (`src/lib.rs` lines 121-145).  `now` is the value read
from `SystemTime::now()`.  The two Rust `match`es on the checked results are
rendered with `Option.elim` (`none` branch first). -/
def rmesg_lines_iter (clear : Bool) (poll_interval : Nat) (now : Nat) :
    Except RMesgError RMesgLinesIterator :=
  (durationCheckedAdd poll_interval MARGIN_200_MILLIS).elim
    (.error .UnableToAddDurationToSystemTime)
    (fun sleep_interval =>
      (systemTimeCheckedSub now sleep_interval).elim
        (.error .UnableToAddDurationToSystemTime)
        (fun last_poll =>
          .ok { clear := clear, lines := [], poll_interval := poll_interval,
                sleep_interval := sleep_interval, last_poll := last_poll,
                lastline := none }))

/-- Inputs consumed by one iteration of the loop in `next`: the current
`SystemTime::now()` reading (used by `last_poll.elapsed()`) and the outcome of
the `rmesg` snapshot read, should this iteration perform one. -/
structure LoopInput where
  now : Nat
  snapshot : Except RMesgError String
deriving DecidableEq

/-- One iteration of the loop body of `RMesgLinesIterator::next`
(`src/lib.rs` lines 43-79).  The first component is `none` when the loop
sleeps and continues, and `some r` when `next` returns `r` (where `r = none`
models Rust's `None`).  The `Bool` records whether `rmesg` was invoked. -/
def nextStep (it : RMesgLinesIterator) (inp : LoopInput) :
    Option (Option (Except RMesgError String)) × RMesgLinesIterator × Bool :=
  if inp.now < it.last_poll then
    (some none, it, false)
  else if it.poll_interval ≤ inp.now - it.last_poll then
    match poll it inp.snapshot with
    | .error _ => (some none, it, true)
    | .ok (_, it2) =>
      if it2.lines.length = 0 then (none, it2, true)
      else (some (some (.ok (it2.lines.headD ""))),
            { it2 with lines := it2.lines.tail }, true)
  else
    if it.lines.length = 0 then (none, it, false)
    else (some (some (.ok (it.lines.headD ""))),
          { it with lines := it.lines.tail }, false)

/-- A whole call to `next`, run on a finite list of loop-iteration inputs.
Returns `none` when the inputs are exhausted with the loop still running,
and `some (r, it)` when the call returns `r` leaving state `it`. -/
def nextRun : RMesgLinesIterator → List LoopInput →
    Option (Option (Except RMesgError String) × RMesgLinesIterator)
  | _, [] => none
  | it, inp :: rest =>
    match nextStep it inp with
    | (some r, it2, _) => some (r, it2)
    | (none, it2, _) => nextRun it2 rest

/-- Like `nextRun`, additionally collecting the times at which the snapshot
source was invoked during the call. -/
def nextRunReads : RMesgLinesIterator → List LoopInput →
    List Nat × Option (Option (Except RMesgError String) × RMesgLinesIterator)
  | _, [] => ([], none)
  | it, inp :: rest =>
    match nextStep it inp with
    | (some r, it2, polled) =>
      ((if polled then [inp.now] else []), some (r, it2))
    | (none, it2, polled) =>
      let tail := nextRunReads it2 rest
      ((if polled then [inp.now] else []) ++ tail.1, tail.2)

/-- Continuous pulling: since each call to `next` runs loop iterations until
one returns, a session of back-to-back `next` calls is the flat sequence of
loop iterations.  `sessionRun` iterates `nextStep` over an input trace and
collects every item yielded. -/
def sessionRun : RMesgLinesIterator → List LoopInput →
    List (Except RMesgError String) × RMesgLinesIterator
  | it, [] => ([], it)
  | it, inp :: rest =>
    match nextStep it inp with
    | (some (some r), it2, _) =>
      let tail := sessionRun it2 rest
      (r :: tail.1, tail.2)
    | (_, it2, _) =>
      sessionRun it2 rest

/-- Iterate `poll` over a list of snapshot-read outcomes. -/
def pollMany : RMesgLinesIterator → List String → Except RMesgError RMesgLinesIterator
  | it, [] => .ok it
  | it, s :: rest =>
    match poll it (.ok s) with
    | .error e => .error e
    | .ok (_, it2) => pollMany it2 rest

/-- The anchor taken from the lines `seen` so far (their last line, if any)
does not occur in the chunk `A` appended after them. -/
def anchorFresh (seen A : List String) : Prop :=
  match seen.getLast? with
  | none => True
  | some a => a ∉ A

/-- Extension discipline relating a list of snapshot strings to the chunks of
lines each one appends.  `ChunksOK snaps As seen` holds when, with `seen` the
lines already present, each snapshot's lines are the previous snapshot's lines
followed by the corresponding chunk, and the line that closes the previous
snapshot (the anchor the iterator will hold) does not recur inside the chunk
appended after it. -/
def ChunksOK : List String → List (List String) → List String → Prop
  | [], [], _ => True
  | s :: ss, A :: As, seen =>
    rustLines s = seen ++ A ∧ anchorFresh seen A ∧ ChunksOK ss As (seen ++ A)
  | _, _, _ => False

/-- Snapshot discipline for a trace of loop-iteration inputs: every iteration's
snapshot read succeeds, its lines extend the lines seen so far by some chunk,
and the extended snapshot is duplicate-free. -/
def SnapsGood : List String → List LoopInput → Prop
  | _, [] => True
  | seen, inp :: rest =>
    ∃ s A, inp.snapshot = .ok s ∧ rustLines s = seen ++ A ∧
      (seen ++ A).Nodup ∧ SnapsGood (seen ++ A) rest

-- Scenario sanity checks (spec §8), used while developing; kept as examples.
example :
    poll { clear := false, lines := [], poll_interval := 0, sleep_interval := 0,
           last_poll := 0, lastline := none } (.ok "a\nb\nc") =
    .ok (3, { clear := false, lines := ["a", "b", "c"], poll_interval := 0,
              sleep_interval := 0, last_poll := 0, lastline := some "c" }) := by
  decide

example :
    poll { clear := false, lines := [], poll_interval := 0, sleep_interval := 0,
           last_poll := 0, lastline := some "c" } (.ok "a\nb\nc\nd\ne") =
    .ok (2, { clear := false, lines := ["d", "e"], poll_interval := 0,
              sleep_interval := 0, last_poll := 0, lastline := some "e" }) := by
  decide

example :
    poll { clear := false, lines := [], poll_interval := 0, sleep_interval := 0,
           last_poll := 0, lastline := some "c" } (.ok "x\ny\nz") =
    .ok (3, { clear := false, lines := ["x", "y", "z"], poll_interval := 0,
              sleep_interval := 0, last_poll := 0, lastline := some "z" }) := by
  decide

example :
    poll { clear := false, lines := [], poll_interval := 0, sleep_interval := 0,
           last_poll := 0, lastline := some "c" } (.ok "a\nb\nc") =
    .ok (0, { clear := false, lines := [], poll_interval := 0,
              sleep_interval := 0, last_poll := 0, lastline := some "c" }) := by
  decide

example :
    poll { clear := false, lines := [], poll_interval := 0, sleep_interval := 0,
           last_poll := 0, lastline := some "c" } (.ok "") =
    .ok (0, { clear := false, lines := [], poll_interval := 0,
              sleep_interval := 0, last_poll := 0, lastline := some "c" }) := by
  decide

theorem pollPush_foldl (l : List String) (acc : List String) (n : Nat) (d : String) :
    l.foldl pollPush (acc, n, d) = (acc ++ l, n + l.length, l.getLastD d) := by
  induction l generalizing acc n d with
  | nil => simp
  | cons c cs ih =>
    simp only [List.foldl_cons, pollPush]
    rw [ih]
    simp only [Prod.mk.injEq, ← List.append_cons, List.length_cons, List.getLastD_cons]
    exact ⟨trivial, by omega, trivial⟩

theorem takeWhile_all {α : Type} (p : α → Bool) (l : List α)
    (h : ∀ x ∈ l, p x = true) : l.takeWhile p = l := by
  induction l with
  | nil => rfl
  | cons a l ih =>
    rw [List.takeWhile_cons_of_pos (h a (by simp))]
    rw [ih (fun x hx => h x (by simp [hx]))]

theorem takeWhile_append_all {α : Type} (p : α → Bool) (l1 l2 : List α)
    (h : ∀ x ∈ l1, p x = true) :
    (l1 ++ l2).takeWhile p = l1 ++ l2.takeWhile p := by
  induction l1 with
  | nil => simp
  | cons a l ih =>
    rw [List.cons_append, List.takeWhile_cons_of_pos (h a (by simp)),
      ih (fun x hx => h x (by simp [hx])), List.cons_append]

theorem deltaLines_none (l : List String) : deltaLines none l = l := by
  unfold deltaLines
  rw [takeWhile_all (lineKeep none) l.reverse (fun x _ => rfl), List.reverse_reverse]

theorem deltaLines_not_mem (a : String) (l : List String) (h : a ∉ l) :
    deltaLines (some a) l = l := by
  unfold deltaLines
  rw [takeWhile_all, List.reverse_reverse]
  intro x hx
  have hxa : x ≠ a := fun he => h (he ▸ List.mem_reverse.mp hx)
  simpa [lineKeep] using hxa

theorem deltaLines_last_occ (a : String) (xs ys : List String) (h : a ∉ ys) :
    deltaLines (some a) (xs ++ a :: ys) = ys := by
  unfold deltaLines
  rw [List.reverse_append, List.reverse_cons, List.append_assoc]
  rw [takeWhile_append_all _ _ _ (by
    intro x hx
    have hxa : x ≠ a := fun he => h (he ▸ List.mem_reverse.mp hx)
    simpa [lineKeep] using hxa)]
  rw [List.singleton_append, List.takeWhile_cons_of_neg (by simp [lineKeep])]
  simp

theorem deltaLines_getLast_append (seen A : List String)
    (hfresh : ∀ a, seen.getLast? = some a → a ∉ A) :
    deltaLines seen.getLast? (seen ++ A) = A := by
  rcases List.eq_nil_or_concat' seen with rfl | ⟨init, a, rfl⟩
  · simpa using deltaLines_none A
  · rw [List.getLast?_concat]
    have ha : a ∉ A := hfresh a (List.getLast?_concat _)
    rw [List.append_assoc, List.singleton_append]
    exact deltaLines_last_occ a init A ha

theorem poll_ok (it : RMesgLinesIterator) (raw : String) :
    poll it (.ok raw) =
      .ok ((deltaLines it.lastline (rustLines raw)).length,
        { it with
          lines := it.lines ++ deltaLines it.lastline (rustLines raw),
          lastline :=
            if deltaLines it.lastline (rustLines raw) = [] then it.lastline
            else some ((deltaLines it.lastline (rustLines raw)).getLastD "") }) := by
  have hfold := pollPush_foldl (deltaLines it.lastline (rustLines raw)) it.lines 0 ""
  by_cases hd : deltaLines it.lastline (rustLines raw) = []
  · simp [poll, hfold, hd]
  · have hlen : 0 < (deltaLines it.lastline (rustLines raw)).length :=
      List.length_pos.mpr hd
    simp [poll, hfold, hd, hlen]

theorem getLast?_eq_some_getLastD (A : List String) (hA : A ≠ []) :
    A.getLast? = some (A.getLastD "") := by
  rcases List.eq_nil_or_concat' A with rfl | ⟨init, b, rfl⟩
  · exact absurd rfl hA
  · rw [List.getLast?_concat, List.getLastD_concat]

theorem deltaLines_mem_split (a : String) (l : List String) (h : a ∈ l) :
    ∃ pre, l = pre ++ a :: deltaLines (some a) l ∧ a ∉ deltaLines (some a) l := by
  have hmem : a ∈ l.reverse := List.mem_reverse.mpr h
  have hd : l.reverse.dropWhile (lineKeep (some a)) ≠ [] := by
    intro hnil
    have hall := List.dropWhile_eq_nil_iff.mp hnil a hmem
    simp [lineKeep] at hall
  have hhead : (l.reverse.dropWhile (lineKeep (some a))).head hd = a := by
    have h1 := List.head_dropWhile_not (lineKeep (some a)) l.reverse hd
    simpa [lineKeep] using h1
  have hcons : l.reverse.dropWhile (lineKeep (some a)) =
      a :: (l.reverse.dropWhile (lineKeep (some a))).tail := by
    nth_rewrite 1 [← List.head_cons_tail (l.reverse.dropWhile (lineKeep (some a))) hd]
    rw [hhead]
  refine ⟨(l.reverse.dropWhile (lineKeep (some a))).tail.reverse, ?_, ?_⟩
  · calc l = l.reverse.reverse := (List.reverse_reverse l).symm
    _ = (l.reverse.takeWhile (lineKeep (some a)) ++
          l.reverse.dropWhile (lineKeep (some a))).reverse := by
        rw [List.takeWhile_append_dropWhile]
    _ = (l.reverse.takeWhile (lineKeep (some a)) ++
          (a :: (l.reverse.dropWhile (lineKeep (some a))).tail)).reverse := by
        rw [← hcons]
    _ = (l.reverse.dropWhile (lineKeep (some a))).tail.reverse ++
          a :: deltaLines (some a) l := by
        rw [List.reverse_append, List.reverse_cons, List.append_assoc,
          List.singleton_append]
        rfl
  · intro hmem2
    have h3 : a ∈ l.reverse.takeWhile (lineKeep (some a)) :=
      List.mem_reverse.mp hmem2
    have h4 := List.mem_takeWhile_imp h3
    simp [lineKeep] at h4

theorem poll_seen_step (it : RMesgLinesIterator) (s : String) (seen A : List String)
    (hlast : it.lastline = seen.getLast?)
    (hs : rustLines s = seen ++ A)
    (hfresh : ∀ a, seen.getLast? = some a → a ∉ A) :
    poll it (.ok s) = .ok (A.length,
      { it with lines := it.lines ++ A, lastline := (seen ++ A).getLast? }) := by
  rw [poll_ok, hlast, hs, deltaLines_getLast_append seen A hfresh]
  by_cases hA : A = []
  · subst hA
    simp
  · have h1 : (seen ++ A).getLast? = A.getLast? := List.getLast?_append_of_ne_nil seen hA
    have h2 := getLast?_eq_some_getLastD A hA
    rw [if_neg hA, h1, h2]

theorem poll_frame (it : RMesgLinesIterator) (res : Except RMesgError String)
    (k : Nat) (it2 : RMesgLinesIterator) (h : poll it res = .ok (k, it2)) :
    it2.clear = it.clear ∧ it2.poll_interval = it.poll_interval ∧
    it2.sleep_interval = it.sleep_interval ∧ it2.last_poll = it.last_poll ∧
    it2.lines = it.lines ++ deltaLines it.lastline (rustLines (res.toOption.getD "")) := by
  cases res with
  | error e => simp [poll] at h
  | ok raw =>
    rw [poll_ok] at h
    simp only [Except.ok.injEq, Prod.mk.injEq] at h
    obtain ⟨hk, hit⟩ := h
    subst hit
    exact ⟨rfl, rfl, rfl, rfl, rfl⟩

/-- C1: `poll` splits the snapshot into lines and scans from the end backward,
collecting lines until it reaches a line textually equal to the anchor or
exhausts the snapshot, then appends the collected lines in original
chronological order to the pending queue (`deltaLines` is exactly that
reverse scan); when the anchor is absent or does not occur anywhere in the
snapshot, the delta is the entire snapshot's lines, and when the anchor
occurs (once or more) the delta is exactly the lines strictly after its
latest occurrence. -/
theorem C1_delta_extraction (it : RMesgLinesIterator) (raw : String) (k : Nat)
    (it2 : RMesgLinesIterator) (h : poll it (.ok raw) = .ok (k, it2)) :
    it2.lines = it.lines ++ deltaLines it.lastline (rustLines raw) ∧
    (it.lastline = none → deltaLines it.lastline (rustLines raw) = rustLines raw) ∧
    (∀ a, it.lastline = some a → a ∉ rustLines raw →
      deltaLines it.lastline (rustLines raw) = rustLines raw) ∧
    (∀ a, it.lastline = some a → a ∈ rustLines raw →
      ∃ pre, rustLines raw = pre ++ a :: deltaLines it.lastline (rustLines raw) ∧
        a ∉ deltaLines it.lastline (rustLines raw)) := by
  refine ⟨?_, ?_, ?_, ?_⟩
  · rw [poll_ok] at h
    simp only [Except.ok.injEq, Prod.mk.injEq] at h
    obtain ⟨hk, hit⟩ := h
    subst hit
    rfl
  · intro hn
    rw [hn]
    exact deltaLines_none _
  · intro a ha hmem
    rw [ha]
    exact deltaLines_not_mem a _ hmem
  · intro a ha hmem
    rw [ha]
    exact deltaLines_mem_split a _ hmem

theorem C1_delta_extraction_witness :
    poll { clear := false, lines := ["p"], poll_interval := 5, sleep_interval := 6,
           last_poll := 0, lastline := some "b" } (.ok "a\nb\nb\nc") =
      .ok (1, { clear := false, lines := ["p", "c"], poll_interval := 5,
                sleep_interval := 6, last_poll := 0, lastline := some "c" }) ∧
    (∃ pre, rustLines "a\nb\nb\nc" =
        pre ++ "b" :: deltaLines (some "b") (rustLines "a\nb\nb\nc") ∧
      "b" ∉ deltaLines (some "b") (rustLines "a\nb\nb\nc")) := by
  refine ⟨by decide, ?_⟩
  exact (C1_delta_extraction
    { clear := false, lines := ["p"], poll_interval := 5, sleep_interval := 6,
      last_poll := 0, lastline := some "b" } "a\nb\nb\nc" 1
    { clear := false, lines := ["p", "c"], poll_interval := 5,
      sleep_interval := 6, last_poll := 0, lastline := some "c" }
    (by decide)).2.2.2 "b" rfl (by decide)

/-- C4: when `poll` processes a snapshot that adds `k > 0` new lines, the
stored anchor `lastline` afterwards equals the chronologically last of those
`k` lines; when it adds `0` new lines (including for the empty snapshot) the
anchor is unchanged. -/
theorem C4_anchor_update (it : RMesgLinesIterator) (raw : String) (k : Nat)
    (it2 : RMesgLinesIterator) (h : poll it (.ok raw) = .ok (k, it2)) :
    it2.lines = it.lines ++ deltaLines it.lastline (rustLines raw) ∧
    k = (deltaLines it.lastline (rustLines raw)).length ∧
    (0 < k → it2.lastline = (deltaLines it.lastline (rustLines raw)).getLast?) ∧
    (k = 0 → it2.lastline = it.lastline) := by
  rw [poll_ok] at h
  simp only [Except.ok.injEq, Prod.mk.injEq] at h
  obtain ⟨hk, hit⟩ := h
  subst hit
  refine ⟨rfl, hk.symm, ?_, ?_⟩
  · intro hpos
    have hne : deltaLines it.lastline (rustLines raw) ≠ [] := by
      intro hnil
      rw [← hk] at hpos
      simp [hnil] at hpos
    simp only [if_neg hne]
    exact (getLast?_eq_some_getLastD _ hne).symm
  · intro hzero
    have hlen0 : (deltaLines it.lastline (rustLines raw)).length = 0 := by omega
    have hnil : deltaLines it.lastline (rustLines raw) = [] :=
      List.eq_nil_of_length_eq_zero hlen0
    simp only [if_pos hnil]

theorem C4_anchor_update_witness :
    poll { clear := false, lines := [], poll_interval := 5, sleep_interval := 6,
           last_poll := 0, lastline := some "c" } (.ok "a\nb\nc\nd\ne") =
      .ok (2, { clear := false, lines := ["d", "e"], poll_interval := 5,
                sleep_interval := 6, last_poll := 0, lastline := some "e" }) ∧
    some "e" = (deltaLines (some "c") (rustLines "a\nb\nc\nd\ne")).getLast? ∧
    poll { clear := false, lines := [], poll_interval := 5, sleep_interval := 6,
           last_poll := 0, lastline := some "c" } (.ok "") =
      .ok (0, { clear := false, lines := [], poll_interval := 5,
                sleep_interval := 6, last_poll := 0, lastline := some "c" }) := by
  refine ⟨by decide, ?_, by decide⟩
  exact (C4_anchor_update
    { clear := false, lines := [], poll_interval := 5, sleep_interval := 6,
      last_poll := 0, lastline := some "c" } "a\nb\nc\nd\ne" 2
    { clear := false, lines := ["d", "e"], poll_interval := 5,
      sleep_interval := 6, last_poll := 0, lastline := some "e" }
    (by decide)).2.2.1 (by decide)

/-- C10: `poll` only appends to the pending queue — every line in the queue
before the call is still there, at the same position and in the same order
(the old queue is literally the start of the new one) — and leaves the
`clear`, `poll_interval`, `sleep_interval` and `last_poll` fields unchanged. -/
theorem C10_poll_appends_only (it : RMesgLinesIterator)
    (res : Except RMesgError String) (k : Nat) (it2 : RMesgLinesIterator)
    (h : poll it res = .ok (k, it2)) :
    (∃ new, it2.lines = it.lines ++ new) ∧
    it2.lines.take it.lines.length = it.lines ∧
    it2.clear = it.clear ∧ it2.poll_interval = it.poll_interval ∧
    it2.sleep_interval = it.sleep_interval ∧ it2.last_poll = it.last_poll := by
  obtain ⟨h1, h2, h3, h4, h5⟩ := poll_frame it res k it2 h
  refine ⟨⟨_, h5⟩, ?_, h1, h2, h3, h4⟩
  rw [h5]
  exact List.take_left it.lines _

theorem C10_poll_appends_only_witness :
    (∃ new,
      (["x", "y"] : List String) ++ deltaLines (some "y") (rustLines "x\ny\nz") =
        ["x", "y"] ++ new) ∧
    poll { clear := true, lines := ["x", "y"], poll_interval := 5,
           sleep_interval := 6, last_poll := 7, lastline := some "y" }
        (.ok "x\ny\nz") =
      .ok (1, { clear := true, lines := ["x", "y", "z"], poll_interval := 5,
                sleep_interval := 6, last_poll := 7, lastline := some "z" }) := by
  refine ⟨?_, by decide⟩
  have hw := C10_poll_appends_only
    { clear := true, lines := ["x", "y"], poll_interval := 5,
      sleep_interval := 6, last_poll := 7, lastline := some "y" }
    (.ok "x\ny\nz") 1
    { clear := true, lines := ["x", "y", "z"], poll_interval := 5,
      sleep_interval := 6, last_poll := 7, lastline := some "z" }
    (by decide)
  obtain ⟨⟨new, hnew⟩, -⟩ := hw
  exact ⟨new, by simpa using hnew⟩

theorem rmesg_lines_iter_eq_ok (clear : Bool) (poll_interval now : Nat)
    (h1 : poll_interval + MARGIN_200_MILLIS ≤ DURATION_MAX)
    (h2 : poll_interval + MARGIN_200_MILLIS ≤ now) :
    rmesg_lines_iter clear poll_interval now =
      .ok { clear := clear, lines := [], poll_interval := poll_interval,
            sleep_interval := poll_interval + MARGIN_200_MILLIS,
            last_poll := now - (poll_interval + MARGIN_200_MILLIS),
            lastline := none } := by
  have hadd : durationCheckedAdd poll_interval MARGIN_200_MILLIS =
      some (poll_interval + MARGIN_200_MILLIS) := by
    rw [durationCheckedAdd, if_pos h1]
  have hsub : systemTimeCheckedSub now (poll_interval + MARGIN_200_MILLIS) =
      some (now - (poll_interval + MARGIN_200_MILLIS)) := by
    rw [systemTimeCheckedSub, if_pos h2]
  rw [rmesg_lines_iter, hadd, Option.elim_some, hsub, Option.elim_some]

theorem rmesg_lines_iter_eq_overflow (clear : Bool) (poll_interval now : Nat)
    (h1 : ¬ poll_interval + MARGIN_200_MILLIS ≤ DURATION_MAX) :
    rmesg_lines_iter clear poll_interval now =
      .error .UnableToAddDurationToSystemTime := by
  have hadd : durationCheckedAdd poll_interval MARGIN_200_MILLIS = none := by
    rw [durationCheckedAdd, if_neg h1]
  rw [rmesg_lines_iter, hadd, Option.elim_none]

theorem rmesg_lines_iter_eq_underflow (clear : Bool) (poll_interval now : Nat)
    (h1 : poll_interval + MARGIN_200_MILLIS ≤ DURATION_MAX)
    (h2 : ¬ poll_interval + MARGIN_200_MILLIS ≤ now) :
    rmesg_lines_iter clear poll_interval now =
      .error .UnableToAddDurationToSystemTime := by
  have hadd : durationCheckedAdd poll_interval MARGIN_200_MILLIS =
      some (poll_interval + MARGIN_200_MILLIS) := by
    rw [durationCheckedAdd, if_pos h1]
  have hsub : systemTimeCheckedSub now (poll_interval + MARGIN_200_MILLIS) = none := by
    rw [systemTimeCheckedSub, if_neg h2]
  rw [rmesg_lines_iter, hadd, Option.elim_some, hsub, Option.elim_none]

theorem rmesg_lines_iter_ok (clear : Bool) (poll_interval now : Nat)
    (it : RMesgLinesIterator)
    (h : rmesg_lines_iter clear poll_interval now = .ok it) :
    it = { clear := clear, lines := [], poll_interval := poll_interval,
           sleep_interval := poll_interval + MARGIN_200_MILLIS,
           last_poll := now - (poll_interval + MARGIN_200_MILLIS),
           lastline := none } ∧
    poll_interval + MARGIN_200_MILLIS ≤ DURATION_MAX ∧
    poll_interval + MARGIN_200_MILLIS ≤ now := by
  by_cases h1 : poll_interval + MARGIN_200_MILLIS ≤ DURATION_MAX
  · by_cases h2 : poll_interval + MARGIN_200_MILLIS ≤ now
    · rw [rmesg_lines_iter_eq_ok clear poll_interval now h1 h2] at h
      exact ⟨(Except.ok.inj h).symm, h1, h2⟩
    · rw [rmesg_lines_iter_eq_underflow clear poll_interval now h1 h2] at h
      exact absurd h (by simp)
  · rw [rmesg_lines_iter_eq_overflow clear poll_interval now h1] at h
    exact absurd h (by simp)

/-- C6: `rmesg_lines_iter` fails — producing an error and no iterator —
exactly when `poll_interval` plus the fixed 200 ms margin is not representable
as a duration, or when subtracting that sum from the current time underflows
the platform's time representation; in particular a `poll_interval` so large
that adding the margin overflows yields the time-arithmetic error
`UnableToAddDurationToSystemTime`. -/
theorem C6_constructor_failure (clear : Bool) (poll_interval now : Nat) :
    ((∃ e, rmesg_lines_iter clear poll_interval now = .error e) ↔
      (DURATION_MAX < poll_interval + MARGIN_200_MILLIS ∨
        now < poll_interval + MARGIN_200_MILLIS)) ∧
    (DURATION_MAX < poll_interval + MARGIN_200_MILLIS →
      rmesg_lines_iter clear poll_interval now =
        .error .UnableToAddDurationToSystemTime) := by
  by_cases h1 : poll_interval + MARGIN_200_MILLIS ≤ DURATION_MAX
  · by_cases h2 : poll_interval + MARGIN_200_MILLIS ≤ now
    · rw [rmesg_lines_iter_eq_ok clear poll_interval now h1 h2]
      refine ⟨⟨fun ⟨e, he⟩ => absurd he (by simp), fun hor => ?_⟩, fun hover => ?_⟩
      · exact absurd hor (by omega)
      · exact absurd hover (by omega)
    · rw [rmesg_lines_iter_eq_underflow clear poll_interval now h1 h2]
      exact ⟨⟨fun _ => Or.inr (by omega), fun _ => ⟨_, rfl⟩⟩, fun _ => rfl⟩
  · rw [rmesg_lines_iter_eq_overflow clear poll_interval now h1]
    exact ⟨⟨fun _ => Or.inl (by omega), fun _ => ⟨_, rfl⟩⟩, fun _ => rfl⟩

theorem C6_constructor_failure_witness :
    DURATION_MAX < DURATION_MAX + MARGIN_200_MILLIS ∧
    rmesg_lines_iter false DURATION_MAX 0 =
      .error .UnableToAddDurationToSystemTime := by
  have hm : 0 < MARGIN_200_MILLIS := by norm_num [MARGIN_200_MILLIS, NANOS_PER_MILLI]
  refine ⟨by omega, ?_⟩
  exact (C6_constructor_failure false DURATION_MAX 0).2 (by omega)

theorem MARGIN_200_MILLIS_pos : 0 < MARGIN_200_MILLIS := by
  norm_num [MARGIN_200_MILLIS, NANOS_PER_MILLI]

theorem nextStep_eq_clockfail (it : RMesgLinesIterator) (inp : LoopInput)
    (h1 : inp.now < it.last_poll) :
    nextStep it inp = (some none, it, false) := by
  unfold nextStep
  rw [if_pos h1]

theorem nextStep_eq_pollfail (it : RMesgLinesIterator) (inp : LoopInput)
    (e : RMesgError)
    (h1 : ¬ inp.now < it.last_poll)
    (h2 : it.poll_interval ≤ inp.now - it.last_poll)
    (hp : poll it inp.snapshot = .error e) :
    nextStep it inp = (some none, it, true) := by
  unfold nextStep
  rw [if_neg h1, if_pos h2, hp]

theorem nextStep_eq_poll_ok (it : RMesgLinesIterator) (inp : LoopInput)
    (k : Nat) (it2 : RMesgLinesIterator)
    (h1 : ¬ inp.now < it.last_poll)
    (h2 : it.poll_interval ≤ inp.now - it.last_poll)
    (hp : poll it inp.snapshot = .ok (k, it2)) :
    nextStep it inp =
      (if it2.lines.length = 0 then (none, it2, true)
       else (some (some (.ok (it2.lines.headD ""))),
             { it2 with lines := it2.lines.tail }, true)) := by
  unfold nextStep
  rw [if_neg h1, if_pos h2, hp]

theorem nextStep_eq_notdue (it : RMesgLinesIterator) (inp : LoopInput)
    (h1 : ¬ inp.now < it.last_poll)
    (h2 : ¬ it.poll_interval ≤ inp.now - it.last_poll) :
    nextStep it inp =
      (if it.lines.length = 0 then (none, it, false)
       else (some (some (.ok (it.lines.headD ""))),
             { it with lines := it.lines.tail }, false)) := by
  unfold nextStep
  rw [if_neg h1, if_neg h2]

theorem nextStep_polled_of_due (it : RMesgLinesIterator) (inp : LoopInput)
    (h1 : ¬ inp.now < it.last_poll)
    (h2 : it.poll_interval ≤ inp.now - it.last_poll) :
    (nextStep it inp).2.2 = true := by
  cases hp : poll it inp.snapshot with
  | error e => rw [nextStep_eq_pollfail it inp e h1 h2 hp]
  | ok pr =>
    obtain ⟨k, it2⟩ := pr
    rw [nextStep_eq_poll_ok it inp k it2 h1 h2 hp]
    by_cases h3 : it2.lines.length = 0
    · rw [if_pos h3]
    · rw [if_neg h3]

theorem nextStep_frame (it : RMesgLinesIterator) (inp : LoopInput) :
    (nextStep it inp).2.1.clear = it.clear ∧
    (nextStep it inp).2.1.poll_interval = it.poll_interval ∧
    (nextStep it inp).2.1.sleep_interval = it.sleep_interval ∧
    (nextStep it inp).2.1.last_poll = it.last_poll := by
  by_cases h1 : inp.now < it.last_poll
  · rw [nextStep_eq_clockfail it inp h1]
    exact ⟨rfl, rfl, rfl, rfl⟩
  · by_cases h2 : it.poll_interval ≤ inp.now - it.last_poll
    · cases hp : poll it inp.snapshot with
      | error e =>
        rw [nextStep_eq_pollfail it inp e h1 h2 hp]
        exact ⟨rfl, rfl, rfl, rfl⟩
      | ok pr =>
        obtain ⟨k, it2⟩ := pr
        obtain ⟨hc, hpi, hsi, hlp, -⟩ := poll_frame it inp.snapshot k it2 hp
        rw [nextStep_eq_poll_ok it inp k it2 h1 h2 hp]
        by_cases h3 : it2.lines.length = 0
        · rw [if_pos h3]
          exact ⟨hc, hpi, hsi, hlp⟩
        · rw [if_neg h3]
          exact ⟨hc, hpi, hsi, hlp⟩
    · rw [nextStep_eq_notdue it inp h1 h2]
      by_cases h3 : it.lines.length = 0
      · rw [if_pos h3]
        exact ⟨rfl, rfl, rfl, rfl⟩
      · rw [if_neg h3]
        exact ⟨rfl, rfl, rfl, rfl⟩

theorem nextRun_frame (inputs : List LoopInput) (it : RMesgLinesIterator)
    (r : Option (Except RMesgError String)) (it2 : RMesgLinesIterator)
    (h : nextRun it inputs = some (r, it2)) :
    it2.clear = it.clear ∧ it2.poll_interval = it.poll_interval ∧
    it2.sleep_interval = it.sleep_interval ∧ it2.last_poll = it.last_poll := by
  induction inputs generalizing it with
  | nil => simp [nextRun] at h
  | cons inp rest ih =>
    obtain ⟨hc, hpi, hsi, hlp⟩ := nextStep_frame it inp
    rcases hs : nextStep it inp with ⟨out, it3, polled⟩
    rw [hs] at hc hpi hsi hlp
    simp only [nextRun, hs] at h
    cases out with
    | some r2 =>
      have h2 : some (r2, it3) = some (r, it2) := h
      obtain ⟨hr, hit⟩ := Prod.mk.injEq .. ▸ Option.some.inj h2
      subst hit
      exact ⟨hc, hpi, hsi, hlp⟩
    | none =>
      have h2 : nextRun it3 rest = some (r, it2) := h
      obtain ⟨hc2, hpi2, hsi2, hlp2⟩ := ih it3 h2
      exact ⟨hc2.trans hc, hpi2.trans hpi, hsi2.trans hsi, hlp2.trans hlp⟩

/-- C7: every iterator produced by successful construction has
`sleep_interval` equal to `poll_interval` plus the fixed 200 ms margin, hence
strictly greater than `poll_interval`; neither field is mutated by `poll` or
by any run of the `next` loop, so the invariant holds for the iterator's
lifetime; and `last_poll` is initialised to the synthetic past time
`now - sleep_interval` so that at any time from construction onward the
elapsed-time check passes and the very first pull performs a snapshot read. -/
theorem C7_sleep_interval_invariant (clear : Bool) (poll_interval now : Nat)
    (it : RMesgLinesIterator)
    (h : rmesg_lines_iter clear poll_interval now = .ok it) :
    it.sleep_interval = it.poll_interval + MARGIN_200_MILLIS ∧
    it.poll_interval < it.sleep_interval ∧
    it.last_poll = now - it.sleep_interval ∧
    (∀ res k it2, poll it res = .ok (k, it2) →
      it2.poll_interval = it.poll_interval ∧
      it2.sleep_interval = it.sleep_interval) ∧
    (∀ inputs r it2, nextRun it inputs = some (r, it2) →
      it2.poll_interval = it.poll_interval ∧
      it2.sleep_interval = it.sleep_interval) ∧
    (∀ t snap, now ≤ t →
      ¬ t < it.last_poll ∧
      it.poll_interval ≤ t - it.last_poll ∧
      (nextStep it { now := t, snapshot := snap }).2.2 = true) := by
  obtain ⟨hit, hrep, hund⟩ := rmesg_lines_iter_ok clear poll_interval now it h
  have hm := MARGIN_200_MILLIS_pos
  subst hit
  refine ⟨rfl, show poll_interval < poll_interval + MARGIN_200_MILLIS by omega,
    rfl, ?_, ?_, ?_⟩
  · intro res k it2 hp
    obtain ⟨-, hpi, hsi, -, -⟩ := poll_frame _ res k it2 hp
    exact ⟨hpi, hsi⟩
  · intro inputs r it2 hr
    obtain ⟨-, hpi, hsi, -⟩ := nextRun_frame inputs _ r it2 hr
    exact ⟨hpi, hsi⟩
  · intro t snap ht
    have h1 : ¬ t < now - (poll_interval + MARGIN_200_MILLIS) := by omega
    have h2 : poll_interval ≤ t - (now - (poll_interval + MARGIN_200_MILLIS)) := by
      omega
    exact ⟨h1, h2, nextStep_polled_of_due _ _ h1 h2⟩

theorem C7_sleep_interval_invariant_witness :
    rmesg_lines_iter true SUGGESTED_POLL_INTERVAL 20000000000 =
      .ok { clear := true, lines := [], poll_interval := SUGGESTED_POLL_INTERVAL,
            sleep_interval := SUGGESTED_POLL_INTERVAL + MARGIN_200_MILLIS,
            last_poll := 20000000000 - (SUGGESTED_POLL_INTERVAL + MARGIN_200_MILLIS),
            lastline := none } ∧
    SUGGESTED_POLL_INTERVAL <
      ({ clear := true, lines := [], poll_interval := SUGGESTED_POLL_INTERVAL,
         sleep_interval := SUGGESTED_POLL_INTERVAL + MARGIN_200_MILLIS,
         last_poll := 20000000000 - (SUGGESTED_POLL_INTERVAL + MARGIN_200_MILLIS),
         lastline := none } : RMesgLinesIterator).sleep_interval := by
  have hrep : SUGGESTED_POLL_INTERVAL + MARGIN_200_MILLIS ≤ DURATION_MAX := by
    norm_num [SUGGESTED_POLL_INTERVAL, MARGIN_200_MILLIS, NANOS_PER_MILLI,
      DURATION_MAX]
  have hund : SUGGESTED_POLL_INTERVAL + MARGIN_200_MILLIS ≤ 20000000000 := by
    norm_num [SUGGESTED_POLL_INTERVAL, MARGIN_200_MILLIS, NANOS_PER_MILLI]
  have hok := rmesg_lines_iter_eq_ok true SUGGESTED_POLL_INTERVAL 20000000000
    hrep hund
  refine ⟨hok, ?_⟩
  exact (C7_sleep_interval_invariant true SUGGESTED_POLL_INTERVAL 20000000000
    _ hok).2.1

theorem nextStep_yield_ok (it : RMesgLinesIterator) (inp : LoopInput)
    (r : Except RMesgError String) (it2 : RMesgLinesIterator) (polled : Bool)
    (hs : nextStep it inp = (some (some r), it2, polled)) :
    ∃ line, r = .ok line := by
  by_cases h1 : inp.now < it.last_poll
  · rw [nextStep_eq_clockfail it inp h1] at hs
    exact absurd hs (by simp)
  · by_cases h2 : it.poll_interval ≤ inp.now - it.last_poll
    · cases hp : poll it inp.snapshot with
      | error e =>
        rw [nextStep_eq_pollfail it inp e h1 h2 hp] at hs
        exact absurd hs (by simp)
      | ok pr =>
        obtain ⟨k, it3⟩ := pr
        rw [nextStep_eq_poll_ok it inp k it3 h1 h2 hp] at hs
        by_cases h3 : it3.lines.length = 0
        · rw [if_pos h3] at hs
          exact absurd hs (by simp)
        · rw [if_neg h3] at hs
          simp only [Prod.mk.injEq, Option.some.injEq] at hs
          exact ⟨_, hs.1.symm⟩
    · rw [nextStep_eq_notdue it inp h1 h2] at hs
      by_cases h3 : it.lines.length = 0
      · rw [if_pos h3] at hs
        exact absurd hs (by simp)
      · rw [if_neg h3] at hs
        simp only [Prod.mk.injEq, Option.some.injEq] at hs
        exact ⟨_, hs.1.symm⟩

/-- C9: although the iterator's item type can carry an error value (each item
is a `Result`), `next` never yields an error item: every item a run of the
loop returns is `Ok` with a line; both error kinds (elapsed-time failure and
snapshot-read failure) surface to the caller solely as end-of-stream
(`None`, cf. the `nextStep` failure equations), the cause going only to
stderr. -/
theorem C9_items_always_ok (inputs : List LoopInput) (it : RMesgLinesIterator)
    (r : Except RMesgError String) (it2 : RMesgLinesIterator)
    (h : nextRun it inputs = some (some r, it2)) :
    ∃ line, r = .ok line := by
  induction inputs generalizing it with
  | nil => simp [nextRun] at h
  | cons inp rest ih =>
    rcases hs : nextStep it inp with ⟨out, it3, polled⟩
    simp only [nextRun, hs] at h
    cases out with
    | some r2 =>
      have h2 : some (r2, it3) = some (some r, it2) := h
      obtain ⟨hr, hit⟩ := Prod.mk.injEq .. ▸ Option.some.inj h2
      subst hr
      subst hit
      exact nextStep_yield_ok it inp r _ polled hs
    | none =>
      have h2 : nextRun it3 rest = some (some r, it2) := h
      exact ih it3 h2

theorem C9_items_always_ok_witness :
    nextRun { clear := false, lines := [], poll_interval := 10,
              sleep_interval := 12, last_poll := 0, lastline := none }
        [{ now := 100, snapshot := .ok "a" }] =
      some (some (.ok "a"),
        { clear := false, lines := [], poll_interval := 10, sleep_interval := 12,
          last_poll := 0, lastline := some "a" }) ∧
    (∃ line, (.ok "a" : Except RMesgError String) = .ok line) := by
  refine ⟨by decide, ?_⟩
  exact C9_items_always_ok
    [{ now := 100, snapshot := .ok "a" }]
    { clear := false, lines := [], poll_interval := 10,
      sleep_interval := 12, last_poll := 0, lastline := none }
    (.ok "a")
    { clear := false, lines := [], poll_interval := 10, sleep_interval := 12,
      last_poll := 0, lastline := some "a" }
    (by decide)

/-- C8 (amended): a pull that returns "no more items" because the
elapsed-time computation failed or because the snapshot read failed leaves
the iterator state completely unchanged — no failure flag is recorded — so
the failed state is not terminal: a subsequent pull proceeds from the very
same state as if the failure had not happened, and can yield an item (see
the accompanying counterexample). -/
theorem C8_failure_not_terminal (it : RMesgLinesIterator) (inp : LoopInput) :
    (inp.now < it.last_poll → nextRun it [inp] = some (none, it)) ∧
    (¬ inp.now < it.last_poll → it.poll_interval ≤ inp.now - it.last_poll →
      ∀ e, inp.snapshot = .error e → nextRun it [inp] = some (none, it)) := by
  constructor
  · intro h1
    have hs := nextStep_eq_clockfail it inp h1
    simp only [nextRun, hs]
  · intro h1 h2 e he
    have hp : poll it inp.snapshot = .error e := by
      rw [he]
      rfl
    have hs := nextStep_eq_pollfail it inp e h1 h2 hp
    simp only [nextRun, hs]

theorem C8_failure_not_terminal_witness :
    nextRun { clear := false, lines := [], poll_interval := 10,
              sleep_interval := 12, last_poll := 0, lastline := none }
        [{ now := 100, snapshot := .error (.SnapshotReadFailure "eperm") }] =
      some (none, { clear := false, lines := [], poll_interval := 10,
                    sleep_interval := 12, last_poll := 0, lastline := none }) := by
  exact (C8_failure_not_terminal
    { clear := false, lines := [], poll_interval := 10,
      sleep_interval := 12, last_poll := 0, lastline := none }
    { now := 100, snapshot := .error (.SnapshotReadFailure "eperm") }).2
    (by decide) (by decide) (.SnapshotReadFailure "eperm") rfl

/-- C8 is false as stated: a pull that returns "no more items" because the
snapshot read failed leaves the state unchanged, and the very next pull on
the same iterator succeeds and yields an item — the failure does not end the
stream. -/
theorem C8_counterexample :
    nextRun { clear := false, lines := [], poll_interval := 10,
              sleep_interval := 12, last_poll := 0, lastline := none }
        [{ now := 100, snapshot := .error (.SnapshotReadFailure "eperm") }] =
      some (none, { clear := false, lines := [], poll_interval := 10,
                    sleep_interval := 12, last_poll := 0, lastline := none }) ∧
    nextRun { clear := false, lines := [], poll_interval := 10,
              sleep_interval := 12, last_poll := 0, lastline := none }
        [{ now := 101, snapshot := .ok "a" }] =
      some (some (.ok "a"),
        { clear := false, lines := [], poll_interval := 10, sleep_interval := 12,
          last_poll := 0, lastline := some "a" }) :=
  ⟨by decide, by decide⟩

/-- C2 fails on the code: `last_poll` is never updated after construction, so
once the initial interval has passed, every entry into `next` performs a
snapshot read no matter how recent the previous one was.  Here
`poll_interval` is 10 time units, yet two successive pulls trigger snapshot
reads at times 100 and 101 — only 1 unit apart.  The code's own comments
("This prevents lots of calls to next from hitting the kernel", "set last
poll in the past so it polls the first time") show the intent the claim
describes, so this is a bug in the code rather than in the claim. -/
theorem C2_reads_not_rate_limited :
    nextRunReads { clear := false, lines := [], poll_interval := 10,
                   sleep_interval := 12, last_poll := 0, lastline := none }
        [{ now := 100, snapshot := .ok "a\nb" }] =
      ([100], some (some (.ok "a"),
        { clear := false, lines := ["b"], poll_interval := 10,
          sleep_interval := 12, last_poll := 0, lastline := some "b" })) ∧
    nextRunReads { clear := false, lines := ["b"], poll_interval := 10,
                   sleep_interval := 12, last_poll := 0, lastline := some "b" }
        [{ now := 101, snapshot := .ok "a\nb" }] =
      ([101], some (some (.ok "b"),
        { clear := false, lines := [], poll_interval := 10,
          sleep_interval := 12, last_poll := 0, lastline := some "b" })) ∧
    (101 : Nat) - 100 < 10 :=
  ⟨by decide, by decide, by decide⟩

theorem anchorFresh_spec (seen A : List String) (h : anchorFresh seen A) :
    ∀ a, seen.getLast? = some a → a ∉ A := by
  intro a ha
  unfold anchorFresh at h
  rw [ha] at h
  exact h

theorem pollMany_chunks (snaps : List String) (As : List (List String))
    (seen : List String) (it : RMesgLinesIterator)
    (hlast : it.lastline = seen.getLast?)
    (hok : ChunksOK snaps As seen) :
    pollMany it snaps = .ok
      { it with lines := it.lines ++ As.flatten,
                lastline := (seen ++ As.flatten).getLast? } := by
  induction snaps generalizing As seen it with
  | nil =>
    cases As with
    | nil =>
      simp only [pollMany, List.flatten_nil, List.append_nil, ← hlast]
    | cons A As => exact absurd hok (by simp [ChunksOK])
  | cons s ss ih =>
    cases As with
    | nil => exact absurd hok (by simp [ChunksOK])
    | cons A As =>
      obtain ⟨hs, hfresh, hrest⟩ := hok
      have hstep := poll_seen_step it s seen A hlast hs (anchorFresh_spec seen A hfresh)
      simp only [pollMany, hstep]
      have ih2 := ih As (seen ++ A)
        { it with lines := it.lines ++ A, lastline := (seen ++ A).getLast? } rfl hrest
      rw [ih2]
      simp only [List.flatten_cons, ← List.append_assoc]

/-- C3 (amended): starting from a fresh iterator, for any sequence of
snapshots where each snapshot's lines are the previous snapshot's lines with
a chunk of lines appended, and where the anchor established from the
previous snapshot (its last line — still present in the next snapshot) does
not recur among the appended chunk, processing the snapshots in order
succeeds and leaves the queue holding exactly the concatenation of all the
appended chunks, in order, with no line missing. -/
theorem C3_no_loss (snaps : List String) (As : List (List String))
    (it : RMesgLinesIterator)
    (hlines : it.lines = [])
    (hlast : it.lastline = none)
    (hok : ChunksOK snaps As []) :
    pollMany it snaps =
      .ok { it with lines := As.flatten, lastline := As.flatten.getLast? } := by
  have h := pollMany_chunks snaps As [] it (by simpa using hlast) hok
  rw [h, hlines]
  simp

theorem C3_no_loss_witness :
    pollMany { clear := false, lines := [], poll_interval := 0,
               sleep_interval := 0, last_poll := 0, lastline := none }
        ["a\nb", "a\nb\nc"] =
      .ok { clear := false, lines := ["a", "b", "c"], poll_interval := 0,
            sleep_interval := 0, last_poll := 0, lastline := some "c" } := by
  have hok : ChunksOK ["a\nb", "a\nb\nc"] [["a", "b"], ["c"]] [] :=
    ⟨by decide, trivial,
      by decide, show ("b" : String) ∉ ["c"] from by decide, trivial⟩
  have h := C3_no_loss ["a\nb", "a\nb\nc"] [["a", "b"], ["c"]]
    { clear := false, lines := [], poll_interval := 0,
      sleep_interval := 0, last_poll := 0, lastline := none } rfl rfl hok
  simpa using h

/-- C3 is false as stated: the snapshot `"a\nb\nc\nb"` extends `"a\nb"` by
appending the lines `["c", "b"]`, and the anchor `"b"` established from the
first snapshot is still present in the second; yet the concatenated delta
output is `["a", "b"]` — the appended lines `"c"` and `"b"` are lost,
because the reverse scan stops at the *latest* occurrence of the anchor. -/
theorem C3_counterexample :
    pollMany { clear := false, lines := [], poll_interval := 0,
               sleep_interval := 0, last_poll := 0, lastline := none }
        ["a\nb", "a\nb\nc\nb"] =
      .ok { clear := false, lines := ["a", "b"], poll_interval := 0,
            sleep_interval := 0, last_poll := 0, lastline := some "b" } ∧
    rustLines "a\nb\nc\nb" = rustLines "a\nb" ++ ["c", "b"] ∧
    "b" ∈ rustLines "a\nb\nc\nb" ∧
    (["a", "b"] : List String) ≠ rustLines "a\nb" ++ ["c", "b"] :=
  ⟨by decide, by decide, by decide, by decide⟩

theorem headD_cons_tail (l : List String) (h : l ≠ []) :
    l.headD "" :: l.tail = l := by
  cases l with
  | nil => exact absurd rfl h
  | cons a l => rfl

theorem sessionRun_spec (inputs : List LoopInput) (it : RMesgLinesIterator)
    (seen : List String)
    (hlast : it.lastline = seen.getLast?)
    (htime : ∀ inp ∈ inputs, ¬ inp.now < it.last_poll ∧
        it.poll_interval ≤ inp.now - it.last_poll)
    (hsnaps : SnapsGood seen inputs) :
    ∃ outLines added,
      (sessionRun it inputs).1 = outLines.map Except.ok ∧
      outLines ++ (sessionRun it inputs).2.lines = it.lines ++ added ∧
      (added = [] ∨ (seen ++ added).Nodup) := by
  induction inputs generalizing it seen with
  | nil =>
    exact ⟨[], [], rfl, by simp [sessionRun], Or.inl rfl⟩
  | cons inp rest ih =>
    obtain ⟨s, A, hsnap, hs, hnodup, hrest⟩ := hsnaps
    obtain ⟨h1, h2⟩ := htime inp (List.mem_cons_self inp rest)
    have hfresh : ∀ a, seen.getLast? = some a → a ∉ A := by
      intro a ha hmem
      have haseen : a ∈ seen := List.mem_of_getLast?_eq_some ha
      exact List.disjoint_of_nodup_append hnodup haseen hmem
    have hpoll : poll it inp.snapshot = .ok (A.length,
        { it with lines := it.lines ++ A, lastline := (seen ++ A).getLast? }) := by
      rw [hsnap]
      exact poll_seen_step it s seen A hlast hs hfresh
    have hstep := nextStep_eq_poll_ok it inp A.length
      { it with lines := it.lines ++ A, lastline := (seen ++ A).getLast? }
      h1 h2 hpoll
    by_cases h3 : (it.lines ++ A).length = 0
    · have h3' : ({ it with lines := it.lines ++ A, lastline := (seen ++ A).getLast? } : RMesgLinesIterator).lines.length = 0 := h3
      rw [if_pos h3'] at hstep
      simp only [sessionRun, hstep]
      obtain ⟨outL, added2, hmap, happ, hnd⟩ := ih
        { it with lines := it.lines ++ A, lastline := (seen ++ A).getLast? }
        (seen ++ A) rfl
        (fun inp2 hm => htime inp2 (List.mem_cons_of_mem inp hm)) hrest
      refine ⟨outL, A ++ added2, hmap, ?_, ?_⟩
      · rw [happ]
        exact List.append_assoc it.lines A added2
      · rcases hnd with rfl | hnd2
        · right
          simpa using hnodup
        · right
          rw [← List.append_assoc]
          exact hnd2
    · have h3' : ¬ ({ it with lines := it.lines ++ A, lastline := (seen ++ A).getLast? } : RMesgLinesIterator).lines.length = 0 := h3
      rw [if_neg h3'] at hstep
      have hstep2 : nextStep it inp =
          (some (some (.ok ((it.lines ++ A).headD ""))),
           { it with lines := (it.lines ++ A).tail, lastline := (seen ++ A).getLast? },
           true) := hstep
      simp only [sessionRun, hstep2]
      obtain ⟨outL, added2, hmap, happ, hnd⟩ := ih
        { it with lines := (it.lines ++ A).tail, lastline := (seen ++ A).getLast? }
        (seen ++ A) rfl
        (fun inp2 hm => htime inp2 (List.mem_cons_of_mem inp hm)) hrest
      have hne : it.lines ++ A ≠ [] := by
        intro hc
        rw [hc] at h3
        exact h3 rfl
      refine ⟨(it.lines ++ A).headD "" :: outL, A ++ added2, ?_, ?_, ?_⟩
      · simp only [List.map_cons, ← hmap]
      · calc ((it.lines ++ A).headD "" :: outL) ++
              (sessionRun { it with lines := (it.lines ++ A).tail, lastline := (seen ++ A).getLast? } rest).2.lines
            = (it.lines ++ A).headD "" :: (outL ++
                (sessionRun { it with lines := (it.lines ++ A).tail, lastline := (seen ++ A).getLast? } rest).2.lines) := by
              rw [List.cons_append]
          _ = (it.lines ++ A).headD "" :: ((it.lines ++ A).tail ++ added2) := by
              rw [happ]
          _ = ((it.lines ++ A).headD "" :: (it.lines ++ A).tail) ++ added2 := by
              rw [List.cons_append]
          _ = (it.lines ++ A) ++ added2 := by
              rw [headD_cons_tail _ hne]
          _ = it.lines ++ (A ++ added2) := List.append_assoc it.lines A added2
      · rcases hnd with rfl | hnd2
        · right
          simpa using hnodup
        · right
          rw [← List.append_assoc]
          exact hnd2

/-- C5 (amended): during one session of continuous pulling on a fresh
iterator, provided every snapshot read succeeds, every snapshot's lines
extend the lines seen so far by appending a chunk, and every snapshot is
free of duplicate lines (which in particular keeps the anchor uniquely
findable in each subsequent snapshot), no line value is yielded twice: the
yielded items are `Ok` of pairwise distinct lines, and the pending queue
never holds a line that was already returned — the returned lines followed
by the final pending queue are duplicate-free. -/
theorem C5_no_duplicates (inputs : List LoopInput) (it : RMesgLinesIterator)
    (hlines : it.lines = [])
    (hlast : it.lastline = none)
    (htime : ∀ inp ∈ inputs, ¬ inp.now < it.last_poll ∧
        it.poll_interval ≤ inp.now - it.last_poll)
    (hsnaps : SnapsGood [] inputs) :
    ∃ outLines,
      (sessionRun it inputs).1 = outLines.map Except.ok ∧
      (outLines ++ (sessionRun it inputs).2.lines).Nodup := by
  obtain ⟨outL, added, hmap, happ, hnd⟩ :=
    sessionRun_spec inputs it [] (by simpa using hlast) htime hsnaps
  refine ⟨outL, hmap, ?_⟩
  rw [happ, hlines]
  rcases hnd with rfl | hnd2
  · simp
  · simpa using hnd2

theorem C5_no_duplicates_witness :
    sessionRun { clear := false, lines := [], poll_interval := 10,
                 sleep_interval := 12, last_poll := 0, lastline := none }
        [{ now := 100, snapshot := .ok "a\nb" },
         { now := 101, snapshot := .ok "a\nb\nc" }] =
      ([.ok "a", .ok "b"],
        { clear := false, lines := ["c"], poll_interval := 10,
          sleep_interval := 12, last_poll := 0, lastline := some "c" }) ∧
    (∃ outLines,
      (sessionRun { clear := false, lines := [], poll_interval := 10,
                    sleep_interval := 12, last_poll := 0, lastline := none }
          [{ now := 100, snapshot := .ok "a\nb" },
           { now := 101, snapshot := .ok "a\nb\nc" }]).1 =
        outLines.map Except.ok ∧
      (outLines ++
        (sessionRun { clear := false, lines := [], poll_interval := 10,
                      sleep_interval := 12, last_poll := 0, lastline := none }
            [{ now := 100, snapshot := .ok "a\nb" },
             { now := 101, snapshot := .ok "a\nb\nc" }]).2.lines).Nodup) := by
  refine ⟨by decide, ?_⟩
  exact C5_no_duplicates
    [{ now := 100, snapshot := .ok "a\nb" },
     { now := 101, snapshot := .ok "a\nb\nc" }]
    { clear := false, lines := [], poll_interval := 10,
      sleep_interval := 12, last_poll := 0, lastline := none }
    rfl rfl (by decide)
    ⟨"a\nb", ["a", "b"], rfl, by decide, by decide,
      ⟨"a\nb\nc", ["c"], rfl, by decide, by decide, trivial⟩⟩

/-- C5 is false as stated: in this session the anchor is uniquely findable
in each subsequent snapshot (after the first pull the anchor is "a", which
occurs exactly once in the next snapshot; after the second it is "d", which
occurs exactly once in the third), yet the line "a" is returned twice — the
duplicate comes from the first snapshot itself containing "a" twice. -/
theorem C5_counterexample :
    sessionRun { clear := false, lines := [], poll_interval := 10,
                 sleep_interval := 12, last_poll := 0, lastline := none }
        [{ now := 100, snapshot := .ok "a\nb\na" },
         { now := 101, snapshot := .ok "c\na\nd" },
         { now := 102, snapshot := .ok "c\na\nd" }] =
      ([.ok "a", .ok "b", .ok "a"],
        { clear := false, lines := ["d"], poll_interval := 10,
          sleep_interval := 12, last_poll := 0, lastline := some "d" }) ∧
    (rustLines "c\na\nd").count "a" = 1 ∧
    (rustLines "c\na\nd").count "d" = 1 ∧
    ¬ ([.ok "a", .ok "b", .ok "a"] :
        List (Except RMesgError String)).Nodup :=
  ⟨by decide, by decide, by decide, by decide⟩

end RMesg
